import Mathlib

/-!
Verification of the dstore embedded object-storage layer.

This development shallowly embeds the Go sources of the repository:
Go strings and byte slices are modelled as lists of byte values
(List Nat, each entry < 256 at the points that matter), int64 values as
integers together with explicit reductions modulo 2^64 where the code
converts to uint64, and the BoltDB engine as a bucket-name-indexed family
of key/value maps with transactional update semantics (an update function
either commits its final state or leaves the database untouched, which is
the documented contract of bbolt's Update).
-/

namespace DStore

/-! ## Bytes of Go string literals -/

/-- Bytes of a Go string literal (the sources only use ASCII literals). -/
def strBytes (s : String) : List Nat := s.data.map Char.toNat

/-! ## Lexicographic comparison of byte strings

bytes.Compare / BoltDB key order: shorter strict prefixes sort first,
otherwise the first differing byte decides. -/

/-- bytes.Compare a b < 0, on byte lists. -/
def lexLtB : List Nat → List Nat → Bool
  | [], [] => false
  | [], _ :: _ => true
  | _ :: _, [] => false
  | a :: as, b :: bs => if a < b then true else if a = b then lexLtB as bs else false

/-! ## Hexadecimal rendering and parsing (store/store.go)

Id.String renders with fmt.Sprintf "%x-%x": lowercase hex, no padding, a
leading minus sign for negative values.  IdFromString splits on the byte
0x2d and parses each half with strconv.ParseInt(s, 16, 64). -/

/-- The byte fmt's %x verb emits for one hex digit (0-9 then a-f). -/
def hexDigitByte (d : Nat) : Nat := if d < 10 then 48 + d else 87 + d

/-- Lowercase-hex rendering of a natural number, most significant digit
first, as the %x verb produces for non-negative values. -/
def toHexBytes (n : Nat) : List Nat :=
  if _h : n < 16 then [hexDigitByte n]
  else toHexBytes (n / 16) ++ [hexDigitByte (n % 16)]
termination_by n
decreasing_by exact Nat.div_lt_self (by omega) (by omega)

/-- fmt %x of an int64: a minus sign (byte 45) followed by the hex digits
of the magnitude when negative, plain hex digits otherwise. -/
def goIntHex (v : Int) : List Nat :=
  if v < 0 then 45 :: toHexBytes (-v).toNat else toHexBytes v.toNat

/-- Value of one hex digit byte as strconv accepts it (0-9, a-f, A-F). -/
def hexDigitVal (b : Nat) : Option Nat :=
  if 48 ≤ b ∧ b ≤ 57 then some (b - 48)
  else if 97 ≤ b ∧ b ≤ 102 then some (b - 87)
  else if 65 ≤ b ∧ b ≤ 70 then some (b - 55)
  else none

/-- Digit-accumulating loop of strconv's base-16 parse. -/
def parseHexNatAux (acc : Nat) : List Nat → Option Nat
  | [] => some acc
  | b :: bs =>
    match hexDigitVal b with
    | some d => parseHexNatAux (16 * acc + d) bs
    | none => none

/-- strconv base-16 digit parse; the empty digit string is a syntax error. -/
def parseHexNat : List Nat → Option Nat
  | [] => none
  | bs => parseHexNatAux 0 bs

/-- strconv.ParseInt(s, 16, 64): optional sign, hex digits, int64 range
check (out-of-range input is an error, hence none here). -/
def parseGoInt64 : List Nat → Option Int
  | [] => none
  | b :: rest =>
    if b = 45 then
      match parseHexNat rest with
      | some n => if n ≤ 2 ^ 63 then some (-(n : Int)) else none
      | none => none
    else if b = 43 then
      match parseHexNat rest with
      | some n => if n < 2 ^ 63 then some ((n : Int)) else none
      | none => none
    else
      match parseHexNat (b :: rest) with
      | some n => if n < 2 ^ 63 then some ((n : Int)) else none
      | none => none

/-- strings.Split for a single-byte separator. -/
def splitOnByte (sep : Nat) : List Nat → List (List Nat)
  | [] => [[]]
  | b :: bs =>
    let r := splitOnByte sep bs
    if b = sep then [] :: r
    else
      match r with
      | [] => [[b]]
      | p :: ps => (b :: p) :: ps

/-! ## Identifiers (store/store.go) -/

/-- Composite identifier: Id{TypeId, ObjectId int64}. -/
structure Id where
  typeId : Int
  objectId : Int
deriving DecidableEq, Repr

/-- Id.String(): fmt.Sprintf("%x-%x", id.TypeId, id.ObjectId), as bytes. -/
def idStringBytes (id : Id) : List Nat :=
  goIntHex id.typeId ++ 45 :: goIntHex id.objectId

/-- IdFromString: split on the separator, demand exactly two parts, parse
each part as a base-16 int64. -/
def IdFromString (bs : List Nat) : Option Id :=
  match splitOnByte 45 bs with
  | [a, b] =>
    match parseGoInt64 a with
    | none => none
    | some t =>
      match parseGoInt64 b with
      | none => none
      | some o => some ⟨t, o⟩
  | _ => none

/-! ## Round-trip lemmas for the identifier text form -/

lemma hexDigitVal_hexDigitByte {d : Nat} (h : d < 16) :
    hexDigitVal (hexDigitByte d) = some d := by
  unfold hexDigitByte hexDigitVal
  split_ifs <;> simp_all <;> omega

lemma hexDigitByte_range {d : Nat} (h : d < 16) :
    (48 ≤ hexDigitByte d ∧ hexDigitByte d ≤ 57) ∨
      (97 ≤ hexDigitByte d ∧ hexDigitByte d ≤ 102) := by
  unfold hexDigitByte
  split_ifs with h1
  · left; omega
  · right; omega

lemma toHexBytes_ne_nil (n : Nat) : toHexBytes n ≠ [] := by
  rw [toHexBytes]
  split_ifs <;> simp

lemma toHexBytes_digits (n : Nat) :
    ∀ b ∈ toHexBytes n, (48 ≤ b ∧ b ≤ 57) ∨ (97 ≤ b ∧ b ≤ 102) := by
  induction n using Nat.strong_induction_on with
  | _ n ih =>
    by_cases h : n < 16
    · rw [toHexBytes, dif_pos h]
      intro b hb
      rw [List.mem_singleton] at hb
      subst hb
      exact hexDigitByte_range h
    · rw [toHexBytes, dif_neg h]
      intro b hb
      rw [List.mem_append] at hb
      rcases hb with hb | hb
      · exact ih (n / 16) (Nat.div_lt_self (by omega) (by omega)) b hb
      · rw [List.mem_singleton] at hb
        subst hb
        exact hexDigitByte_range (Nat.mod_lt _ (by omega))

lemma parseHexNatAux_append (xs ys : List Nat) :
    ∀ acc, parseHexNatAux acc (xs ++ ys) =
      match parseHexNatAux acc xs with
      | some m => parseHexNatAux m ys
      | none => none := by
  induction xs with
  | nil => intro acc; simp [parseHexNatAux]
  | cons b bs ih =>
    intro acc
    simp only [List.cons_append, parseHexNatAux]
    cases hexDigitVal b <;> simp [ih]

lemma parseHexNatAux_toHexBytes (n : Nat) :
    ∀ acc, parseHexNatAux acc (toHexBytes n) =
      some (acc * 16 ^ (toHexBytes n).length + n) := by
  induction n using Nat.strong_induction_on with
  | _ n ih =>
    intro acc
    by_cases h : n < 16
    · rw [toHexBytes, dif_pos h]
      simp [parseHexNatAux, hexDigitVal_hexDigitByte h]
      omega
    · rw [toHexBytes, dif_neg h]
      rw [parseHexNatAux_append]
      rw [ih (n / 16) (Nat.div_lt_self (by omega) (by omega)) acc]
      have hd : n % 16 < 16 := Nat.mod_lt _ (by omega)
      simp [parseHexNatAux, hexDigitVal_hexDigitByte hd]
      have key : 16 * (n / 16) + n % 16 = n := Nat.div_add_mod n 16
      calc 16 * (acc * 16 ^ (toHexBytes (n / 16)).length + n / 16) + n % 16
          = acc * (16 ^ (toHexBytes (n / 16)).length * 16) +
              (16 * (n / 16) + n % 16) := by ring
        _ = acc * (16 ^ (toHexBytes (n / 16)).length * 16) + n := by rw [key]

lemma parseHexNat_toHexBytes (n : Nat) : parseHexNat (toHexBytes n) = some n := by
  obtain ⟨c, cs, hc⟩ := List.exists_cons_of_ne_nil (toHexBytes_ne_nil n)
  rw [hc]
  show parseHexNatAux 0 (c :: cs) = some n
  rw [← hc, parseHexNatAux_toHexBytes n 0]
  simp

lemma parseGoInt64_toHexBytes {n : Nat} (h : n < 2 ^ 63) :
    parseGoInt64 (toHexBytes n) = some (n : Int) := by
  obtain ⟨c, cs, hc⟩ := List.exists_cons_of_ne_nil (toHexBytes_ne_nil n)
  have hcmem : c ∈ toHexBytes n := by rw [hc]; exact List.mem_cons_self _ _
  have hrange := toHexBytes_digits n c hcmem
  rw [hc, parseGoInt64]
  rw [if_neg (by omega), if_neg (by omega), ← hc, parseHexNat_toHexBytes n]
  simp only []
  rw [if_pos h]

lemma mem_toHexBytes_ne_sep {m b : Nat} (hb : b ∈ toHexBytes m) : b ≠ 45 := by
  rcases toHexBytes_digits m b hb with ⟨h1, h2⟩ | ⟨h1, h2⟩ <;> omega

lemma splitOnByte_not_mem {sep : Nat} {xs : List Nat} (h : sep ∉ xs) :
    splitOnByte sep xs = [xs] := by
  induction xs with
  | nil => rfl
  | cons b bs ih =>
    rw [List.mem_cons, not_or] at h
    rw [splitOnByte]
    simp only [ih h.2]
    rw [if_neg (fun hbs => h.1 hbs.symm)]

lemma splitOnByte_append {sep : Nat} {xs : List Nat} (h : sep ∉ xs) (ys : List Nat) :
    splitOnByte sep (xs ++ sep :: ys) = xs :: splitOnByte sep ys := by
  induction xs with
  | nil => simp [splitOnByte]
  | cons b bs ih =>
    rw [List.mem_cons, not_or] at h
    rw [List.cons_append, splitOnByte]
    simp only [ih h.2]
    rw [if_neg (fun hbs => h.1 hbs.symm)]

lemma splitOnByte_two {sep : Nat} {xs ys : List Nat} (hx : sep ∉ xs) (hy : sep ∉ ys) :
    splitOnByte sep (xs ++ sep :: ys) = [xs, ys] := by
  rw [splitOnByte_append hx, splitOnByte_not_mem hy]

/-- C2: for every valid (non-negative, allocatable) identifier,
IdFromString inverts Id.String. -/
theorem c2_id_string_roundtrip (t o : Int)
    (ht0 : 0 ≤ t) (ht : t < 2 ^ 63) (ho0 : 0 ≤ o) (ho : o < 2 ^ 63) :
    IdFromString (idStringBytes ⟨t, o⟩) = some ⟨t, o⟩ := by
  have hsep : ∀ m : Nat, (45 : Nat) ∉ toHexBytes m := by
    intro m hmem
    exact mem_toHexBytes_ne_sep hmem rfl
  unfold idStringBytes goIntHex
  simp only
  rw [if_neg (by omega), if_neg (by omega)]
  unfold IdFromString
  rw [splitOnByte_two (hsep _) (hsep _)]
  simp only [parseGoInt64_toHexBytes (show t.toNat < 2 ^ 63 by omega),
    parseGoInt64_toHexBytes (show o.toNat < 2 ^ 63 by omega)]
  simp only [Option.some.injEq, Id.mk.injEq]
  constructor <;> omega

/-! ## Index codec: Int64 (part_003, updateIndexes Int64Index case)

uint64Val := uint64(intValue) ^ (1 << 63); binary.BigEndian.PutUint64. -/

/-- Go conversion int64 → uint64 (two's complement reinterpretation). -/
def uint64OfInt (a : Int) : Nat := (a % (2 : Int) ^ 64).toNat

/-- binary.BigEndian.PutUint64: eight bytes, most significant first;
byte(x) truncates modulo 256. -/
def be8 (u : Nat) : List Nat :=
  [u >>> 56 % 256, u >>> 48 % 256, u >>> 40 % 256, u >>> 32 % 256,
   u >>> 24 % 256, u >>> 16 % 256, u >>> 8 % 256, u % 256]

/-- The Int64Index encoding of updateIndexes. -/
def encodeInt64 (a : Int) : List Nat := be8 (uint64OfInt a ^^^ 1 <<< 63)

/-- Big-endian base-256 digits, as a recursion handle for be8. -/
def bytesBE : Nat → Nat → List Nat
  | 0, _ => []
  | w + 1, u => u / 2 ^ (8 * w) % 256 :: bytesBE w (u % 2 ^ (8 * w))

lemma xor_two_pow_add {r : Nat} (h : r < 2 ^ 63) : r ^^^ 2 ^ 63 = 2 ^ 63 + r := by
  apply Nat.eq_of_testBit_eq
  intro i
  rcases lt_trichotomy i 63 with hi | hi | hi
  · rw [Nat.testBit_xor, Nat.testBit_two_pow_add_gt hi,
      Nat.testBit_two_pow_of_ne (by omega)]
    simp
  · subst hi
    rw [Nat.testBit_xor, Nat.testBit_two_pow_add_eq, Nat.testBit_two_pow_self,
      Nat.testBit_lt_two_pow h]
    simp
  · have h1 : (2 : Nat) ^ 64 ≤ 2 ^ i := Nat.pow_le_pow_right (by omega) (by omega)
    rw [Nat.testBit_xor, Nat.testBit_two_pow_of_ne (by omega),
      Nat.testBit_lt_two_pow (by omega),
      Nat.testBit_lt_two_pow (show 2 ^ 63 + r < 2 ^ i by omega)]
    simp

lemma xor_two_pow_sub {r : Nat} (h : r < 2 ^ 63) : (2 ^ 63 + r) ^^^ 2 ^ 63 = r := by
  rw [← xor_two_pow_add h, Nat.xor_assoc, Nat.xor_self, Nat.xor_zero]

/-- Value level: the uint64 reinterpretation xored with the top bit sends
an int64 a to the natural number a + 2^63, which is strictly monotone. -/
lemma uint64OfInt_xor_eq {a : Int} (h0 : -(2 ^ 63) ≤ a) (h1 : a < 2 ^ 63) :
    uint64OfInt a ^^^ 1 <<< 63 = (a + 2 ^ 63).toNat := by
  have hsh : (1 <<< 63 : Nat) = 2 ^ 63 := by norm_num [Nat.shiftLeft_eq]
  rcases le_or_lt 0 a with ha | ha
  · have hmod : a % (2 : Int) ^ 64 = a := Int.emod_eq_of_lt ha (by omega)
    have hlt : a.toNat < 2 ^ 63 := by omega
    rw [uint64OfInt, hmod, hsh, xor_two_pow_add hlt]
    omega
  · have hmod : a % (2 : Int) ^ 64 = a + 2 ^ 64 := by
      have h2 : a % (2 : Int) ^ 64 = (a + 2 ^ 64) % 2 ^ 64 := by
        omega
      rw [h2]
      exact Int.emod_eq_of_lt (by omega) (by omega)
    have hr : (a + 2 ^ 64).toNat = 2 ^ 63 + (a + 2 ^ 63).toNat := by omega
    have hlt : (a + 2 ^ 63).toNat < 2 ^ 63 := by omega
    rw [uint64OfInt, hmod, hsh, hr, xor_two_pow_sub hlt]

lemma bytesBE_lt : ∀ (w : Nat) {u v : Nat}, u < v → v < 2 ^ (8 * w) →
    lexLtB (bytesBE w u) (bytesBE w v) = true := by
  intro w
  induction w with
  | zero =>
    intro u v huv hv
    simp at hv
    omega
  | succ w ih =>
    intro u v huv hv
    have hpow : (2 : Nat) ^ (8 * (w + 1)) = 2 ^ (8 * w) * 256 := by
      rw [show 8 * (w + 1) = 8 * w + 8 by ring, pow_add]
      norm_num
    have hB : 0 < 2 ^ (8 * w) := Nat.pos_pow_of_pos _ (by omega)
    have hvd : v / 2 ^ (8 * w) < 256 := by
      rw [Nat.div_lt_iff_lt_mul hB]
      omega
    have hud : u / 2 ^ (8 * w) < 256 := by
      rw [Nat.div_lt_iff_lt_mul hB]
      omega
    have hle : u / 2 ^ (8 * w) ≤ v / 2 ^ (8 * w) := Nat.div_le_div_right (by omega)
    rw [bytesBE, bytesBE, Nat.mod_eq_of_lt hud, Nat.mod_eq_of_lt hvd]
    rcases eq_or_lt_of_le hle with heq | hlt
    · have hmu := Nat.div_add_mod u (2 ^ (8 * w))
      have hmv := Nat.div_add_mod v (2 ^ (8 * w))
      have humod : u % 2 ^ (8 * w) < v % 2 ^ (8 * w) := by
        rw [heq] at hmu
        omega
      have hvmod : v % 2 ^ (8 * w) < 2 ^ (8 * w) := Nat.mod_lt _ hB
      rw [lexLtB, if_neg (by omega), if_pos heq]
      exact ih humod hvmod
    · rw [lexLtB, if_pos hlt]

lemma mod_pow_div_mod (u j : Nat) : u % 2 ^ (j + 8) / 2 ^ j % 256 = u / 2 ^ j % 256 := by
  rw [pow_add, Nat.mod_mul_right_div_self]
  norm_num

lemma mod_pow_mod_pow (u : Nat) {a b : Nat} (h : a ≤ b) :
    u % 2 ^ b % 2 ^ a = u % 2 ^ a :=
  Nat.mod_mod_of_dvd u (pow_dvd_pow 2 h)

lemma bytesBE_eight (u : Nat) :
    bytesBE 8 u =
      [u / 2 ^ 56 % 256,
       u % 2 ^ 56 / 2 ^ 48 % 256,
       u % 2 ^ 56 % 2 ^ 48 / 2 ^ 40 % 256,
       u % 2 ^ 56 % 2 ^ 48 % 2 ^ 40 / 2 ^ 32 % 256,
       u % 2 ^ 56 % 2 ^ 48 % 2 ^ 40 % 2 ^ 32 / 2 ^ 24 % 256,
       u % 2 ^ 56 % 2 ^ 48 % 2 ^ 40 % 2 ^ 32 % 2 ^ 24 / 2 ^ 16 % 256,
       u % 2 ^ 56 % 2 ^ 48 % 2 ^ 40 % 2 ^ 32 % 2 ^ 24 % 2 ^ 16 / 2 ^ 8 % 256,
       u % 2 ^ 56 % 2 ^ 48 % 2 ^ 40 % 2 ^ 32 % 2 ^ 24 % 2 ^ 16 % 2 ^ 8 / 2 ^ 0 % 256] :=
  rfl

lemma be8_eq_bytesBE (u : Nat) : be8 u = bytesBE 8 u := by
  rw [bytesBE_eight]
  rw [mod_pow_mod_pow u (show (48 : Nat) ≤ 56 by omega),
    mod_pow_mod_pow u (show (40 : Nat) ≤ 48 by omega),
    mod_pow_mod_pow u (show (32 : Nat) ≤ 40 by omega),
    mod_pow_mod_pow u (show (24 : Nat) ≤ 32 by omega),
    mod_pow_mod_pow u (show (16 : Nat) ≤ 24 by omega),
    mod_pow_mod_pow u (show (8 : Nat) ≤ 16 by omega)]
  rw [mod_pow_div_mod u 48, mod_pow_div_mod u 40, mod_pow_div_mod u 32,
    mod_pow_div_mod u 24, mod_pow_div_mod u 16, mod_pow_div_mod u 8,
    mod_pow_div_mod u 0]
  rw [be8]
  simp only [Nat.shiftRight_eq_div_pow]
  norm_num

/-- C4: the Int64 index encoding is strictly order preserving byte-wise,
across the whole int64 range and in particular across the sign boundary. -/
theorem c4_int64_encoding_monotone (a b : Int)
    (ha : -(2 ^ 63) ≤ a) (hab : a < b) (hb : b < 2 ^ 63) :
    lexLtB (encodeInt64 a) (encodeInt64 b) = true := by
  rw [encodeInt64, encodeInt64,
    uint64OfInt_xor_eq (by omega) (by omega), uint64OfInt_xor_eq (by omega) hb,
    be8_eq_bytesBE, be8_eq_bytesBE]
  apply bytesBE_lt 8
  · omega
  · norm_num
    omega

/-! ## Index codec: DateTime (part_003, updateIndexes DateTimeIndex case)

The code formats the property value with time.RFC3339Nano
("2006-01-02T15:04:05.999999999Z07:00").  Go's ".999999999" directive
prints the fractional second with trailing zeros removed and omits it
entirely when the fraction is zero, and the offset prints as the time's
own location (plain Z for UTC).  We model the format on UTC instants of
one calendar day, which is enough to settle the ordering claim. -/

/-- A UTC instant on 2000-01-01 (hour/minute/second/nanosecond). -/
structure GoTime where
  hour : Nat
  minute : Nat
  second : Nat
  nanos : Nat
deriving DecidableEq, Repr

/-- Chronological order on the modelled instants. -/
def timeLtB (a b : GoTime) : Bool :=
  if a.hour ≠ b.hour then a.hour < b.hour
  else if a.minute ≠ b.minute then a.minute < b.minute
  else if a.second ≠ b.second then a.second < b.second
  else a.nanos < b.nanos

/-- Two-digit zero-padded decimal field of the time format. -/
def pad2 (n : Nat) : List Nat := [48 + n / 10 % 10, 48 + n % 10]

/-- Nine decimal digits of the nanosecond field, most significant first. -/
def pad9 (n : Nat) : List Nat :=
  [48 + n / 100000000 % 10, 48 + n / 10000000 % 10, 48 + n / 1000000 % 10,
   48 + n / 100000 % 10, 48 + n / 10000 % 10, 48 + n / 1000 % 10,
   48 + n / 100 % 10, 48 + n / 10 % 10, 48 + n % 10]

/-- Go's ".999999999" fraction directive drops trailing zeros. -/
def trimTrailingZeros (bs : List Nat) : List Nat :=
  (bs.reverse.dropWhile (fun b => b = 48)).reverse

/-- Fractional-second text: absent when zero, else a dot and the trimmed
digits (byte 46 is the dot). -/
def rfc3339NanoFrac (ns : Nat) : List Nat :=
  if ns = 0 then [] else 46 :: trimTrailingZeros (pad9 ns)

/-- time.Time.AppendFormat(..., time.RFC3339Nano) for a UTC instant of
2000-01-01: date, T, clock, optional fraction, Z (byte 90). -/
def encodeDateTime (t : GoTime) : List Nat :=
  strBytes "2000-01-01T" ++ pad2 t.hour ++ [58] ++ pad2 t.minute ++ [58] ++
    pad2 t.second ++ rfc3339NanoFrac t.nanos ++ [90]

/-- C5 is false of the code: 2000-01-01T00:00:01Z is strictly earlier than
2000-01-01T00:00:01.5Z, yet its RFC3339Nano encoding is lexicographically
strictly greater (the fraction is trimmed away, and byte 90 ('Z') follows
byte 46 ('.')).  This contradicts the source's own comment that the
format is lexicographically sortable. -/
theorem c5_datetime_encoding_not_sortable :
    timeLtB ⟨0, 0, 1, 0⟩ ⟨0, 0, 1, 500000000⟩ = true ∧
      lexLtB (encodeDateTime ⟨0, 0, 1, 500000000⟩) (encodeDateTime ⟨0, 0, 1, 0⟩) = true := by
  constructor
  · rfl
  · rfl

/-! ## Storage engine model (part_003 BoltStore, part_002 index types)

Records are modelled with their struct fields in an association list, so
the reflection-based GetIndexable*Value extractors become lookups that
succeed exactly when the named field exists and has the matching kind.
Serialization is the pluggable per-type round-trip capability of the
Storable contract, so a primary-bucket value stores the record itself
(BVal.record) and unmarshalling anything else fails; index buckets store
raw identifier bytes (BVal.bytes). -/

inductive IndexType
  | unique
  | nonUnique
deriving DecidableEq, Repr

inductive IndexDataType
  | stringIdx
  | int64Idx
  | float64Idx
  | boolIdx
  | dateTimeIdx
deriving DecidableEq, Repr

/-- store.IndexDefinition (part_002). -/
structure IndexDefinition where
  propertyName : List Nat
  type : IndexType
  dataType : IndexDataType
deriving DecidableEq, Repr

/-- A struct field value of one of the indexable kinds (float64 is carried
as its IEEE-754 bit pattern, which is all the codec touches). -/
inductive PropValue
  | str (s : List Nat)
  | int64 (i : Int)
  | float64 (bits : Nat)
  | boolean (b : Bool)
  | dateTime (t : GoTime)
deriving DecidableEq, Repr

/-- A Storable record: identifier (nilable), type name, struct fields. -/
structure DRecord where
  id : Option Id
  typeName : List Nat
  props : List (List Nat × PropValue)
deriving DecidableEq, Repr

/-- GetIndexableStringValue: the named field, if present and a string. -/
def getIndexableStringValue (r : DRecord) (p : List Nat) : Option (List Nat) :=
  match r.props.lookup p with
  | some (PropValue.str s) => some s
  | _ => none

/-- GetIndexableIntValue: the named field, if present and an int64. -/
def getIndexableIntValue (r : DRecord) (p : List Nat) : Option Int :=
  match r.props.lookup p with
  | some (PropValue.int64 i) => some i
  | _ => none

/-- GetIndexableFloatValue: the named field, if present and a float64. -/
def getIndexableFloatValue (r : DRecord) (p : List Nat) : Option Nat :=
  match r.props.lookup p with
  | some (PropValue.float64 bits) => some bits
  | _ => none

/-- GetIndexableBoolValue: the named field, if present and a bool. -/
def getIndexableBoolValue (r : DRecord) (p : List Nat) : Option Bool :=
  match r.props.lookup p with
  | some (PropValue.boolean b) => some b
  | _ => none

/-- GetIndexableDateTimeValue: the named field, if present a time.Time. -/
def getIndexableDateTimeValue (r : DRecord) (p : List Nat) : Option GoTime :=
  match r.props.lookup p with
  | some (PropValue.dateTime t) => some t
  | _ => none

/-- Float64Index transform on the IEEE bit pattern: set the sign bit on
non-negatives, complement all 64 bits on negatives (^bits on uint64). -/
def encodeFloatBits (bits : Nat) : List Nat :=
  be8 (if bits &&& 1 <<< 63 = 0 then bits ||| 1 <<< 63 else 2 ^ 64 - 1 - bits)

/-- Identifier bytes used as primary key and index payload:
[]byte(id.String()). -/
def idBytes (id : Id) : List Nat := idStringBytes id

/-- The switch over index.DataType in updateIndexes / Delete producing the
encoded property value bytes; none means the extractor failed and the
index is skipped. -/
def indexEncodedValue (r : DRecord) (idx : IndexDefinition) : Option (List Nat) :=
  match idx.dataType with
  | IndexDataType.stringIdx => getIndexableStringValue r idx.propertyName
  | IndexDataType.int64Idx => (getIndexableIntValue r idx.propertyName).map encodeInt64
  | IndexDataType.float64Idx => (getIndexableFloatValue r idx.propertyName).map encodeFloatBits
  | IndexDataType.boolIdx =>
    (getIndexableBoolValue r idx.propertyName).map (fun b => if b then [1] else [0])
  | IndexDataType.dateTimeIdx => (getIndexableDateTimeValue r idx.propertyName).map encodeDateTime

/-- buildIndexKey: the encoded value alone for a unique index, the encoded
value, a null byte and the identifier bytes for a non-unique one. -/
def buildIndexKey (indexType : IndexType) (propertyValueBytes : List Nat) (id : Id) : List Nat :=
  match indexType with
  | IndexType.unique => propertyValueBytes
  | IndexType.nonUnique => propertyValueBytes ++ 0 :: idBytes id

/-- A bucket value: raw bytes (index entries) or a marshalled record
(primary entries, kept as the record by the round-trip contract). -/
inductive BVal
  | bytes (bs : List Nat)
  | record (r : DRecord)
deriving DecidableEq, Repr

/-- One BoltDB bucket. -/
abbrev Bucket := List Nat → Option BVal

/-- The BoltDB database: named buckets. -/
structure DB where
  buckets : List Nat → Option Bucket

/-- bucket.Get via the bucket name; none when bucket or key is absent. -/
def lookupB (db : DB) (bucketName key : List Nat) : Option BVal :=
  match db.buckets bucketName with
  | some bk => bk key
  | none => none

/-- tx.CreateBucketIfNotExists. -/
def createBucketIfNotExists (db : DB) (bucketName : List Nat) : DB :=
  match db.buckets bucketName with
  | some _ => db
  | none => ⟨fun m => if m = bucketName then some (fun _ => none) else db.buckets m⟩

/-- bucket.Put through the bucket name. -/
def bucketPut (db : DB) (bucketName key : List Nat) (v : BVal) : DB :=
  let old : Bucket := (db.buckets bucketName).getD (fun _ => none)
  ⟨fun m =>
    if m = bucketName then some (fun k2 => if k2 = key then some v else old k2)
    else db.buckets m⟩

/-- bucket.Delete through the bucket name (no error when key is absent). -/
def bucketDelete (db : DB) (bucketName key : List Nat) : DB :=
  match db.buckets bucketName with
  | none => db
  | some bk =>
    ⟨fun m =>
      if m = bucketName then some (fun k2 => if k2 = key then none else bk k2)
      else db.buckets m⟩

/-- The error kinds of the fault package that the model can raise. -/
inductive DErr
  | idIsNil
  | storableHasNilId
  | typeNotFound
  | bucketNotFound
  | keyNotFound
  | typeNotCreated
  | unmarshalFailed
  | uniqueViolation (propertyName : List Nat) (existing : BVal)
deriving DecidableEq, Repr

/-- The StoreTypeManager the BoltStore consults (the SystemRegistry):
GetTypeName, Indexes, and whether CreateInstance succeeds. -/
structure TypeManager where
  typeName : Int → Option (List Nat)
  indexes : Int → List IndexDefinition
  canCreate : Int → Bool

/-- BoltStore.typeBucketKey: "Type." + typeName. -/
def typeBucketKey (tm : TypeManager) (typeId : Int) : Except DErr (List Nat) :=
  match tm.typeName typeId with
  | some n => Except.ok (strBytes "Type." ++ n)
  | none => Except.error DErr.typeNotFound

/-- BoltStore.mkIndexBucketName: "Index." + typeName + "." + property. -/
def mkIndexBucketName (tm : TypeManager) (typeId : Int) (propertyName : List Nat) :
    Except DErr (List Nat) :=
  match tm.typeName typeId with
  | some n => Except.ok (strBytes "Index." ++ n ++ strBytes "." ++ propertyName)
  | none => Except.error DErr.typeNotFound

/-- bbolt db.Update: the body either commits its final state, or its error
aborts the transaction leaving the database unchanged. -/
def runUpdate (f : DB → Except DErr DB) (db : DB) : Option DErr × DB :=
  match f db with
  | Except.ok db2 => (none, db2)
  | Except.error e => (some e, db)

/-- The loop body of BoltStore.updateIndexes over the declared index
definitions: create the index bucket, extract and encode the property
(skipping the index when extraction fails), enforce the unique-index
check against the existing entry, then write indexKey → idBytes. -/
def updateIndexesAux (tm : TypeManager) (m : DRecord) (id : Id) :
    List IndexDefinition → DB → Except DErr DB
  | [], db => Except.ok db
  | idx :: rest, db =>
    match mkIndexBucketName tm id.typeId idx.propertyName with
    | Except.error e => Except.error e
    | Except.ok ibn =>
      let db1 := createBucketIfNotExists db ibn
      match indexEncodedValue m idx with
      | none => updateIndexesAux tm m id rest db1
      | some pvb =>
        let key := buildIndexKey idx.type pvb id
        let idB := idBytes id
        match idx.type with
        | IndexType.unique =>
          match lookupB db1 ibn key with
          | some existing =>
            if existing = BVal.bytes idB then
              updateIndexesAux tm m id rest (bucketPut db1 ibn key (BVal.bytes idB))
            else Except.error (DErr.uniqueViolation idx.propertyName existing)
          | none => updateIndexesAux tm m id rest (bucketPut db1 ibn key (BVal.bytes idB))
        | IndexType.nonUnique =>
          updateIndexesAux tm m id rest (bucketPut db1 ibn key (BVal.bytes idB))

/-- BoltStore.Put: nil-id check, then one transaction writing the primary
entry and running updateIndexes. -/
def putRecord (tm : TypeManager) (m : DRecord) (db : DB) : Option DErr × DB :=
  match m.id with
  | none => (some DErr.storableHasNilId, db)
  | some id =>
    match typeBucketKey tm id.typeId with
    | Except.error e => (some e, db)
    | Except.ok bn =>
      runUpdate
        (fun db0 =>
          let db1 := createBucketIfNotExists db0 bn
          let db2 := bucketPut db1 bn (idBytes id) (BVal.record m)
          updateIndexesAux tm m id (tm.indexes id.typeId) db2)
        db

/-- BoltStore.Get: bucket and key lookups, CreateInstance, Unmarshal. -/
def getRecord (tm : TypeManager) (db : DB) (idOpt : Option Id) : Except DErr DRecord :=
  match idOpt with
  | none => Except.error DErr.idIsNil
  | some id =>
    match typeBucketKey tm id.typeId with
    | Except.error e => Except.error e
    | Except.ok bn =>
      match db.buckets bn with
      | none => Except.error DErr.bucketNotFound
      | some bk =>
        match bk (idBytes id) with
        | none => Except.error DErr.keyNotFound
        | some v =>
          if tm.canCreate id.typeId then
            match v with
            | BVal.record r => Except.ok r
            | BVal.bytes _ => Except.error DErr.unmarshalFailed
          else Except.error DErr.typeNotCreated

/-- The index-cleanup loop of BoltStore.Delete: recompute each index key
from the fetched record and delete it; a missing index bucket or failed
extraction is skipped. -/
def deleteIndexesAux (tm : TypeManager) (r : DRecord) (id : Id) :
    List IndexDefinition → DB → Except DErr DB
  | [], db => Except.ok db
  | idx :: rest, db =>
    match mkIndexBucketName tm id.typeId idx.propertyName with
    | Except.error e => Except.error e
    | Except.ok ibn =>
      match db.buckets ibn with
      | none => deleteIndexesAux tm r id rest db
      | some _ =>
        match indexEncodedValue r idx with
        | none => deleteIndexesAux tm r id rest db
        | some pvb =>
          deleteIndexesAux tm r id rest (bucketDelete db ibn (buildIndexKey idx.type pvb id))

/-- BoltStore.Delete: fetch first (an absent record or bucket makes the
delete a vacuous success), then one transaction deleting the primary
entry and every recomputed index entry. -/
def deleteRecord (tm : TypeManager) (idOpt : Option Id) (db : DB) : Option DErr × DB :=
  match idOpt with
  | none => (some DErr.idIsNil, db)
  | some id =>
    match getRecord tm db (some id) with
    | Except.error e =>
      if e = DErr.keyNotFound ∨ e = DErr.bucketNotFound then (none, db) else (some e, db)
    | Except.ok r =>
      runUpdate
        (fun db0 =>
          match typeBucketKey tm id.typeId with
          | Except.error e => Except.error e
          | Except.ok bn =>
            match db0.buckets bn with
            | none => Except.error DErr.bucketNotFound
            | some _ =>
              deleteIndexesAux tm r id (tm.indexes id.typeId)
                (bucketDelete db0 bn (idBytes id)))
        db

/-! ## Database map lemmas -/

lemma lookupB_bucketPut_ne {db : DB} {n k n2 k2 : List Nat} {v : BVal}
    (h : n2 ≠ n ∨ k2 ≠ k) :
    lookupB (bucketPut db n k v) n2 k2 = lookupB db n2 k2 := by
  by_cases hn : n2 = n
  · subst hn
    have hk : k2 ≠ k := by tauto
    unfold bucketPut lookupB
    rcases hb : db.buckets n2 with _ | bk <;> simp [hb, Option.getD, hk]
  · unfold bucketPut lookupB
    simp only [if_neg hn]

lemma createBucketIfNotExists_of_some {db : DB} {n : List Nat} {bk : Bucket}
    (h : db.buckets n = some bk) : createBucketIfNotExists db n = db := by
  unfold createBucketIfNotExists
  rw [h]

lemma lookupB_create_preserve {db : DB} {n k : List Nat} {v : BVal}
    (h : lookupB db n k = some v) (n2 : List Nat) :
    lookupB (createBucketIfNotExists db n2) n k = some v := by
  unfold createBucketIfNotExists
  rcases hb : db.buckets n2 with _ | bk
  · unfold lookupB at h ⊢
    by_cases hn : n = n2
    · subst hn
      rw [hb] at h
      exact absurd h (by simp)
    · simp only [if_neg hn]
      exact h
  · exact h

/-! ## Bucket-name disjointness and injectivity -/

lemma typeBucket_ne_indexBucket (x y z : List Nat) :
    strBytes "Type." ++ x ≠ strBytes "Index." ++ y ++ strBytes "." ++ z := by
  have hT : strBytes "Type." = [84, 121, 112, 101, 46] := rfl
  have hI : strBytes "Index." = [73, 110, 100, 101, 120, 46] := rfl
  rw [hT, hI]
  intro h
  simp at h

lemma indexBucketName_inj {tn p q : List Nat}
    (h : strBytes "Index." ++ tn ++ strBytes "." ++ p
        = strBytes "Index." ++ tn ++ strBytes "." ++ q) : p = q :=
  List.append_cancel_left h

/-! ## Property extraction is single-valued per property name -/

lemma indexEncodedValue_same_prop {m : DRecord} {i1 i2 : IndexDefinition}
    (hp : i1.propertyName = i2.propertyName) {v1 v2 : List Nat}
    (h1 : indexEncodedValue m i1 = some v1) (h2 : indexEncodedValue m i2 = some v2) :
    v1 = v2 := by
  rcases hl : m.props.lookup i1.propertyName with _ | pv
  · exfalso
    cases hd : i1.dataType <;>
      simp [indexEncodedValue, getIndexableStringValue, getIndexableIntValue,
        getIndexableFloatValue, getIndexableBoolValue, getIndexableDateTimeValue,
        hl, hd] at h1
  · have hl2 : m.props.lookup i2.propertyName = some pv := by rw [← hp, hl]
    cases pv <;> cases hd1 : i1.dataType <;> cases hd2 : i2.dataType <;>
      simp_all [indexEncodedValue, getIndexableStringValue, getIndexableIntValue,
        getIndexableFloatValue, getIndexableBoolValue, getIndexableDateTimeValue]

/-! ## C1: a pre-existing unique-index conflict always aborts Put -/

/-- The result is a uniqueness-violation error. -/
def isUniqViol (r : Except DErr DB) : Prop :=
  ∃ p ex, r = Except.error (DErr.uniqueViolation p ex)

lemma updateIndexesAux_unique_fail
    {tm : TypeManager} {m : DRecord} {id : Id} {tn : List Nat}
    {d : IndexDefinition} {vb eb : List Nat}
    (htn : tm.typeName id.typeId = some tn)
    (hdu : d.type = IndexType.unique)
    (hval : indexEncodedValue m d = some vb)
    (hne : eb ≠ idBytes id) :
    ∀ (L : List IndexDefinition) (db : DB), d ∈ L →
      lookupB db (strBytes "Index." ++ tn ++ strBytes "." ++ d.propertyName) vb
        = some (BVal.bytes eb) →
      isUniqViol (updateIndexesAux tm m id L db) := by
  intro L
  induction L with
  | nil =>
    intro db hmem _
    exact absurd hmem (List.not_mem_nil d)
  | cons idx rest ih =>
    intro db hmem hlook
    rw [updateIndexesAux]
    simp only [mkIndexBucketName, htn]
    have hcreate :
        lookupB (createBucketIfNotExists db
            (strBytes "Index." ++ tn ++ strBytes "." ++ idx.propertyName))
          (strBytes "Index." ++ tn ++ strBytes "." ++ d.propertyName) vb
          = some (BVal.bytes eb) :=
      lookupB_create_preserve hlook _
    rcases hv : indexEncodedValue m idx with _ | pvb
    · have hdr : d ∈ rest := by
        rcases List.mem_cons.mp hmem with he | hr
        · rw [he, hv] at hval
          cases hval
        · exact hr
      exact ih _ hdr hcreate
    · have hdr_of_nali :
          ¬((strBytes "Index." ++ tn ++ strBytes "." ++ idx.propertyName
              = strBytes "Index." ++ tn ++ strBytes "." ++ d.propertyName) ∧ pvb = vb) →
            d ∈ rest := by
        intro hali
        rcases List.mem_cons.mp hmem with he | hr
        · exfalso
          apply hali
          constructor
          · rw [he]
          · rw [he, hv] at hval
            exact Option.some.inj hval
        · exact hr
      rcases hty : idx.type with _ | _
      · -- unique head
        simp only [buildIndexKey]
        split
        · -- an existing entry was found under this head's key
          next existing heq =>
            split
            · -- it carries this very record's identifier: write and recurse
              next hexid =>
                have hali : ¬((strBytes "Index." ++ tn ++ strBytes "." ++ idx.propertyName
                    = strBytes "Index." ++ tn ++ strBytes "." ++ d.propertyName) ∧ pvb = vb) := by
                  rintro ⟨hn1, hk1⟩
                  rw [hn1, hk1] at heq
                  rw [hn1] at hcreate
                  rw [heq] at hcreate
                  apply hne
                  have hbe : existing = BVal.bytes eb := Option.some.inj hcreate
                  rw [hbe] at hexid
                  exact (BVal.bytes.inj hexid).symm ▸ rfl
                have hpair :
                    strBytes "Index." ++ tn ++ strBytes "." ++ d.propertyName
                      ≠ strBytes "Index." ++ tn ++ strBytes "." ++ idx.propertyName
                    ∨ vb ≠ pvb := by tauto
                apply ih _ (hdr_of_nali hali)
                rw [lookupB_bucketPut_ne hpair]
                exact hcreate
            · -- a different identifier: the uniqueness violation error
              exact ⟨_, _, rfl⟩
        · -- no existing entry under this head's key
          next heq =>
            have hali : ¬((strBytes "Index." ++ tn ++ strBytes "." ++ idx.propertyName
                = strBytes "Index." ++ tn ++ strBytes "." ++ d.propertyName) ∧ pvb = vb) := by
              rintro ⟨hn1, hk1⟩
              rw [hn1, hk1] at heq
              rw [hn1] at hcreate
              rw [heq] at hcreate
              cases hcreate
            have hpair :
                strBytes "Index." ++ tn ++ strBytes "." ++ d.propertyName
                  ≠ strBytes "Index." ++ tn ++ strBytes "." ++ idx.propertyName
                ∨ vb ≠ pvb := by tauto
            apply ih _ (hdr_of_nali hali)
            rw [lookupB_bucketPut_ne hpair]
            exact hcreate
      · -- non-unique head
        simp only [buildIndexKey]
        have hdr : d ∈ rest := by
          rcases List.mem_cons.mp hmem with he | hr
          · exfalso
            rw [he, hty] at hdu
            cases hdu
          · exact hr
        apply ih _ hdr
        have hkne :
            strBytes "Index." ++ tn ++ strBytes "." ++ d.propertyName
              ≠ strBytes "Index." ++ tn ++ strBytes "." ++ idx.propertyName
            ∨ vb ≠ pvb ++ 0 :: idBytes id := by
          by_cases hn : strBytes "Index." ++ tn ++ strBytes "." ++ d.propertyName
              = strBytes "Index." ++ tn ++ strBytes "." ++ idx.propertyName
          · right
            have hpq : d.propertyName = idx.propertyName := indexBucketName_inj hn
            have hvv : vb = pvb := indexEncodedValue_same_prop hpq hval hv
            rw [hvv]
            intro hc
            have hlen := congrArg List.length hc
            simp at hlen
          · left
            exact hn
        rw [lookupB_bucketPut_ne hkne]
        exact hcreate

/-- C1: if a Unique index declared for the record's type already maps the
record's encoded property value to a different identifier, Put fails with
a uniqueness-violation error and the database is unchanged: neither the
primary write nor any index write of this Put becomes visible. -/
theorem c1_put_unique_violation_atomic
    (tm : TypeManager) (db : DB) (m : DRecord) (id : Id) (tn : List Nat)
    (d : IndexDefinition) (vb eb : List Nat)
    (hid : m.id = some id)
    (htn : tm.typeName id.typeId = some tn)
    (hmem : d ∈ tm.indexes id.typeId)
    (hdu : d.type = IndexType.unique)
    (hval : indexEncodedValue m d = some vb)
    (hex : lookupB db (strBytes "Index." ++ tn ++ strBytes "." ++ d.propertyName) vb
      = some (BVal.bytes eb))
    (hne : eb ≠ idBytes id) :
    ∃ p ex, putRecord tm m db = (some (DErr.uniqueViolation p ex), db) := by
  have hpres :
      lookupB (bucketPut (createBucketIfNotExists db (strBytes "Type." ++ tn))
          (strBytes "Type." ++ tn) (idBytes id) (BVal.record m))
        (strBytes "Index." ++ tn ++ strBytes "." ++ d.propertyName) vb
        = some (BVal.bytes eb) := by
    rw [lookupB_bucketPut_ne
      (Or.inl (Ne.symm (typeBucket_ne_indexBucket tn tn d.propertyName)))]
    exact lookupB_create_preserve hex _
  obtain ⟨p, ex, herr⟩ :=
    updateIndexesAux_unique_fail htn hdu hval hne (tm.indexes id.typeId) _ hmem hpres
  refine ⟨p, ex, ?_⟩
  simp only [putRecord, hid, typeBucketKey, htn, runUpdate, herr]

/-- Fixed closed instance for the C1 witness: one registered type with one
unique string index whose bucket already maps the value to alien bytes. -/
def c1def : IndexDefinition :=
  ⟨strBytes "p", IndexType.unique, IndexDataType.stringIdx⟩

def c1tm : TypeManager :=
  { typeName := fun t => if t = 7 then some (strBytes "T") else none
    indexes := fun t => if t = 7 then [c1def] else []
    canCreate := fun t => t == 7 }

def c1rec : DRecord :=
  ⟨some ⟨7, 1⟩, strBytes "T", [(strBytes "p", PropValue.str (strBytes "x"))]⟩

def c1db : DB :=
  ⟨fun n =>
    if n = strBytes "Index." ++ strBytes "T" ++ strBytes "." ++ strBytes "p" then
      some (fun k => if k = strBytes "x" then some (BVal.bytes []) else none)
    else none⟩

lemma idBytes_ne_nil (id : Id) : idBytes id ≠ [] := by
  unfold idBytes idStringBytes
  intro h
  have := congrArg List.length h
  simp at this

/-- Witness for C1 at the fixed instance. -/
theorem c1_witness :
    ∃ p ex, putRecord c1tm c1rec c1db = (some (DErr.uniqueViolation p ex), c1db) :=
  c1_put_unique_violation_atomic c1tm c1db c1rec ⟨7, 1⟩ (strBytes "T") c1def
    (strBytes "x") [] rfl (by decide) (by decide) rfl rfl (by decide)
    fun h => idBytes_ne_nil ⟨7, 1⟩ h.symm

/-! ## C6: delete is idempotent and removes primary and index entries -/

lemma lookupB_bucketDelete_same (db : DB) (n k : List Nat) :
    lookupB (bucketDelete db n k) n k = none := by
  unfold bucketDelete lookupB
  rcases hb : db.buckets n with _ | bk
  · rw [hb]
  · simp

lemma lookupB_bucketDelete_none {db : DB} {n k : List Nat} (h : lookupB db n k = none)
    (n2 k2 : List Nat) : lookupB (bucketDelete db n2 k2) n k = none := by
  unfold bucketDelete lookupB at *
  rcases hb : db.buckets n2 with _ | bk
  · exact h
  · by_cases hn : n = n2
    · subst hn
      rw [hb] at h
      simp only [] at h
      by_cases hk : k = k2 <;> simp [hk, h]
    · simp [hn]
      exact h

lemma bucketDelete_buckets_ne {db : DB} {n2 k2 n : List Nat} (h : n ≠ n2) :
    (bucketDelete db n2 k2).buckets n = db.buckets n := by
  unfold bucketDelete
  rcases hb : db.buckets n2 with _ | bk
  · rfl
  · simp [if_neg h]

lemma deleteIndexesAux_none_preserve {tm : TypeManager} {r : DRecord} {id : Id} :
    ∀ (L : List IndexDefinition) (db db2 : DB),
      deleteIndexesAux tm r id L db = Except.ok db2 →
      ∀ n k, lookupB db n k = none → lookupB db2 n k = none := by
  intro L
  induction L with
  | nil =>
    intro db db2 hok n k h
    rw [deleteIndexesAux] at hok
    cases hok
    exact h
  | cons idx rest ih =>
    intro db db2 hok n k h
    rw [deleteIndexesAux] at hok
    split at hok
    · exact Except.noConfusion hok
    · split at hok
      · exact ih _ _ hok n k h
      · split at hok
        · exact ih _ _ hok n k h
        · exact ih _ _ hok n k (lookupB_bucketDelete_none h _ _)

lemma deleteIndexesAux_ok (r : DRecord) {tm : TypeManager} {id : Id} {tn : List Nat}
    (htn : tm.typeName id.typeId = some tn) :
    ∀ (L : List IndexDefinition) (db : DB),
      ∃ db2, deleteIndexesAux tm r id L db = Except.ok db2
        ∧ (∀ n, (∀ z : List Nat, n ≠ strBytes "Index." ++ tn ++ strBytes "." ++ z) →
            db2.buckets n = db.buckets n) := by
  intro L
  induction L with
  | nil =>
    intro db
    exact ⟨db, rfl, fun n _ => rfl⟩
  | cons idx rest ih =>
    intro db
    rw [deleteIndexesAux]
    simp only [mkIndexBucketName, htn]
    rcases hb : db.buckets (strBytes "Index." ++ tn ++ strBytes "." ++ idx.propertyName)
        with _ | bk
    · obtain ⟨db2, hok, hpre⟩ := ih db
      exact ⟨db2, hok, hpre⟩
    · rcases hv : indexEncodedValue r idx with _ | pvb
      · obtain ⟨db2, hok, hpre⟩ := ih db
        exact ⟨db2, hok, hpre⟩
      · obtain ⟨db2, hok, hpre⟩ :=
          ih (bucketDelete db (strBytes "Index." ++ tn ++ strBytes "." ++ idx.propertyName)
            (buildIndexKey idx.type pvb id))
        refine ⟨db2, hok, fun n hz => ?_⟩
        rw [hpre n hz, bucketDelete_buckets_ne (hz idx.propertyName)]

lemma deleteIndexesAux_deletes {tm : TypeManager} {r : DRecord} {id : Id} {tn : List Nat}
    (htn : tm.typeName id.typeId = some tn) {d : IndexDefinition} {vb : List Nat}
    (hval : indexEncodedValue r d = some vb) :
    ∀ (L : List IndexDefinition) (db db2 : DB), d ∈ L →
      deleteIndexesAux tm r id L db = Except.ok db2 →
      lookupB db2 (strBytes "Index." ++ tn ++ strBytes "." ++ d.propertyName)
        (buildIndexKey d.type vb id) = none := by
  intro L
  induction L with
  | nil =>
    intro db db2 hmem _
    exact absurd hmem (List.not_mem_nil d)
  | cons idx rest ih =>
    intro db db2 hmem hok
    rw [deleteIndexesAux] at hok
    simp only [mkIndexBucketName, htn] at hok
    rcases List.mem_cons.mp hmem with he | hr
    · subst he
      rcases hb : db.buckets (strBytes "Index." ++ tn ++ strBytes "." ++ d.propertyName)
          with _ | bk <;> rw [hb] at hok
      · -- the index bucket does not exist: the entry is already absent
        have hnone : lookupB db (strBytes "Index." ++ tn ++ strBytes "." ++ d.propertyName)
            (buildIndexKey d.type vb id) = none := by
          unfold lookupB
          rw [hb]
        exact deleteIndexesAux_none_preserve rest db db2 hok _ _ hnone
      · rw [hval] at hok
        have hnone := lookupB_bucketDelete_same db
          (strBytes "Index." ++ tn ++ strBytes "." ++ d.propertyName)
          (buildIndexKey d.type vb id)
        exact deleteIndexesAux_none_preserve rest _ db2 hok _ _ hnone
    · rcases hb : db.buckets (strBytes "Index." ++ tn ++ strBytes "." ++ idx.propertyName)
          with _ | bk <;> rw [hb] at hok
      · exact ih db db2 hr hok
      · rcases hv : indexEncodedValue r idx with _ | pvb <;> rw [hv] at hok
        · exact ih db db2 hr hok
        · exact ih _ db2 hr hok

/-- C6: deleting a nonexistent record (missing key or missing bucket)
succeeds with no error and no state change; deleting an existing record
succeeds, removes the primary entry (a subsequent Get fails with
KeyNotFound) and removes, for every declared index, the index entry built
from the stored record's property value. -/
theorem c6_delete_semantics
    (tm : TypeManager) (db : DB) (id : Id) (tn : List Nat) (r : DRecord)
    (htn : tm.typeName id.typeId = some tn) :
    (lookupB db (strBytes "Type." ++ tn) (idBytes id) = none →
      deleteRecord tm (some id) db = (none, db)) ∧
    (lookupB db (strBytes "Type." ++ tn) (idBytes id) = some (BVal.record r) →
      tm.canCreate id.typeId = true →
      (deleteRecord tm (some id) db).1 = none ∧
      lookupB (deleteRecord tm (some id) db).2 (strBytes "Type." ++ tn) (idBytes id) = none ∧
      getRecord tm (deleteRecord tm (some id) db).2 (some id)
        = Except.error DErr.keyNotFound ∧
      (∀ d ∈ tm.indexes id.typeId, ∀ vb, indexEncodedValue r d = some vb →
        lookupB (deleteRecord tm (some id) db).2
          (strBytes "Index." ++ tn ++ strBytes "." ++ d.propertyName)
          (buildIndexKey d.type vb id) = none)) := by
  constructor
  · intro hnone
    unfold lookupB at hnone
    rcases hb : db.buckets (strBytes "Type." ++ tn) with _ | bk
    · have hget : getRecord tm db (some id) = Except.error DErr.bucketNotFound := by
        simp only [getRecord, typeBucketKey, htn, hb]
      simp only [deleteRecord, hget]
      simp
    · rw [hb] at hnone
      simp only [] at hnone
      have hget : getRecord tm db (some id) = Except.error DErr.keyNotFound := by
        simp only [getRecord, typeBucketKey, htn, hb, hnone]
      simp only [deleteRecord, hget]
      simp
  · intro hsome hcc
    obtain ⟨bk, hbk, hkey⟩ :
        ∃ bk, db.buckets (strBytes "Type." ++ tn) = some bk
          ∧ bk (idBytes id) = some (BVal.record r) := by
      unfold lookupB at hsome
      rcases hbb : db.buckets (strBytes "Type." ++ tn) with _ | bk <;> rw [hbb] at hsome
      · simp at hsome
      · exact ⟨bk, rfl, by simpa using hsome⟩
    have hget : getRecord tm db (some id) = Except.ok r := by
      simp only [getRecord, typeBucketKey, htn, hbk, hkey, hcc]
      simp
    obtain ⟨db2, hok, hpre⟩ := deleteIndexesAux_ok r htn (tm.indexes id.typeId)
        (bucketDelete db (strBytes "Type." ++ tn) (idBytes id))
    have hdel : deleteRecord tm (some id) db = (none, db2) := by
      simp only [deleteRecord, hget, runUpdate, typeBucketKey, htn, hbk, hok]
    rw [hdel]
    have hprim : db2.buckets (strBytes "Type." ++ tn)
        = (bucketDelete db (strBytes "Type." ++ tn) (idBytes id)).buckets
            (strBytes "Type." ++ tn) :=
      hpre _ (fun z => typeBucket_ne_indexBucket tn tn z)
    have hdelbk : (bucketDelete db (strBytes "Type." ++ tn) (idBytes id)).buckets
        (strBytes "Type." ++ tn) = some (fun k2 => if k2 = idBytes id then none else bk k2) := by
      unfold bucketDelete
      simp [hbk]
    refine ⟨rfl, ?_, ?_, ?_⟩
    · unfold lookupB
      rw [hprim, hdelbk]
      simp
    · simp only [getRecord, typeBucketKey, htn]
      rw [hprim, hdelbk]
      simp
    · intro d hd vb hvb
      exact deleteIndexesAux_deletes htn hvb (tm.indexes id.typeId) _ db2 hd hok

/-- Fixed closed instance for the C6 witness. -/
def c6rec : DRecord :=
  ⟨some ⟨7, 1⟩, strBytes "T", [(strBytes "p", PropValue.str (strBytes "x"))]⟩

def c6tm : TypeManager :=
  { typeName := fun t => if t = 7 then some (strBytes "T") else none
    indexes := fun t =>
      if t = 7 then [⟨strBytes "p", IndexType.unique, IndexDataType.stringIdx⟩] else []
    canCreate := fun t => t == 7 }

def c6db : DB :=
  ⟨fun n =>
    if n = strBytes "Type." ++ strBytes "T" then
      some (fun k => if k = idBytes ⟨7, 1⟩ then some (BVal.record c6rec) else none)
    else none⟩

/-- Witness for C6 at the fixed instance: the stored record is deleted
without error and its primary entry is gone. -/
theorem c6_witness :
    (deleteRecord c6tm (some ⟨7, 1⟩) c6db).1 = none ∧
    lookupB (deleteRecord c6tm (some ⟨7, 1⟩) c6db).2 (strBytes "Type." ++ strBytes "T")
      (idBytes ⟨7, 1⟩) = none := by
  have hsome : lookupB c6db (strBytes "Type." ++ strBytes "T") (idBytes ⟨7, 1⟩)
      = some (BVal.record c6rec) := by
    simp [lookupB, c6db]
  have h := (c6_delete_semantics c6tm c6db ⟨7, 1⟩ (strBytes "T") c6rec (by decide)).2
    hsome (by decide)
  exact ⟨h.1, h.2.1⟩

/-- Witness for C2 at a concrete allocatable identifier. -/
theorem c2_witness :
    (0 : Int) ≤ 2 ∧ IdFromString (idStringBytes ⟨2, 1001⟩) = some ⟨2, 1001⟩ :=
  ⟨by decide,
    c2_id_string_roundtrip 2 1001 (by decide) (by decide) (by decide) (by decide)⟩

/-- Witness for C4 across the sign boundary. -/
theorem c4_witness :
    (-1 : Int) < 0 ∧ lexLtB (encodeInt64 (-1)) (encodeInt64 0) = true :=
  ⟨by decide, c4_int64_encoding_monotone (-1) 0 (by decide) (by decide) (by decide)⟩

/-! ## Type registry model (types/system_registry.go)

RegistryInfo and RegistryItem carry the persisted metadata; the factory
function of a RegistryItem plays no role in the verified operations and
is omitted.  Store persistence inside AllocateId is represented by the
outcome the store's Put would return. -/

def REGISTRY_INFO_TYPE_ID : Int := 1
def REGISTRY_INFO_OBJECT_ID : Int := 1
def REGISTRY_ITEM_TYPE_ID : Int := 2

/-- RegistryInfo: singleton bootstrap record. -/
structure RegistryInfo where
  id : Option Id
  nextTypeId : Int
  nextObjectId : Int
deriving DecidableEq, Repr

/-- RegistryInfo.GetId: always the reserved identifier (1,1), ignoring the
stored Id field. -/
def RegistryInfo.GetId (_ : RegistryInfo) : Id :=
  ⟨REGISTRY_INFO_TYPE_ID, REGISTRY_INFO_OBJECT_ID⟩

/-- RegistryInfo.SetId: a no-op. -/
def RegistryInfo.SetId (ri : RegistryInfo) (_ : Id) : RegistryInfo := ri

/-- RegistryItem: per-type metadata. -/
structure RegistryItem where
  id : Option Id
  typeName : List Nat
  typeId : Int
  nextObjectId : Int
  indexes : List IndexDefinition
deriving DecidableEq, Repr

/-- NewRegistryItem: fresh in-memory item, all counters at Go zero
values. -/
def NewRegistryItem (typeName : List Nat) : RegistryItem :=
  ⟨none, typeName, 0, 0, []⟩

/-- SystemRegistry.Register: appends a fresh item; no de-duplication. -/
def registerItem (items : List RegistryItem) (typeName : List Nat) : List RegistryItem :=
  items ++ [NewRegistryItem typeName]

/-- SystemRegistry.AllocateId: look the type up by name, mint the id from
the item's counter, increment the counter, stamp the record, then persist
the item; putOutcome is the error the store's Put returns (none on
success).  The returned triple is (returned error, updated registry item,
identifier stamped onto the record) — the stamp and the increment happen
before the persistence attempt. -/
def allocateIdForType (typeNameIndex : List Nat → Option RegistryItem)
    (recTypeName : List Nat) (putOutcome : Option DErr) :
    Option DErr × Option RegistryItem × Option Id :=
  match typeNameIndex recTypeName with
  | none => (some DErr.typeNotFound, none, none)
  | some info =>
    let id : Id := ⟨info.typeId, info.nextObjectId⟩
    let info2 := { info with nextObjectId := info.nextObjectId + 1 }
    (putOutcome, some info2, some id)

/-- One successful AllocateId step for a type's item: the updated item and
the minted identifier. -/
def allocateIdSuccess (info : RegistryItem) : RegistryItem × Id :=
  ({ info with nextObjectId := info.nextObjectId + 1 }, ⟨info.typeId, info.nextObjectId⟩)

/-- N successful AllocateId calls for one type, returning the final item
and the identifiers in call order. -/
def allocateSeq (info : RegistryItem) : Nat → RegistryItem × List Id
  | 0 => (info, [])
  | n + 1 =>
    let step := allocateIdSuccess info
    let rest := allocateSeq step.1 n
    (rest.1, step.2 :: rest.2)

/-- allocateSeq is allocateIdForType iterated on the success path. -/
lemma allocateIdForType_success (idx : List Nat → Option RegistryItem)
    (nm : List Nat) (info : RegistryItem) (h : idx nm = some info) :
    allocateIdForType idx nm none
      = (none, some (allocateIdSuccess info).1, some (allocateIdSuccess info).2) := by
  simp [allocateIdForType, h, allocateIdSuccess]

/-- SystemRegistry.updateTypeInfo: copy the persisted item's identifier,
type id, counter and index list onto every in-memory item of that name. -/
def updateTypeInfo (items : List RegistryItem) (p : RegistryItem) : List RegistryItem :=
  items.map fun ri =>
    if ri.typeName = p.typeName then
      { ri with id := p.id, typeId := p.typeId, nextObjectId := p.nextObjectId,
                indexes := p.indexes }
    else ri

/-- SystemRegistry.allocateNewType: assign the next type id, give the item
its own storage identifier (2, nextObjectId), reset its object counter to
1, and advance both RegistryInfo counters (the Put calls panic on failure
and are modelled as succeeding). -/
def allocateNewType (info : RegistryInfo) (item : RegistryItem) :
    RegistryInfo × RegistryItem :=
  let item2 := { item with
    typeId := info.nextTypeId,
    id := some ⟨REGISTRY_ITEM_TYPE_ID, info.nextObjectId⟩,
    nextObjectId := 1 }
  let info2 := { info with
    nextTypeId := info.nextTypeId + 1,
    nextObjectId := info.nextObjectId + 1 }
  (info2, item2)

/-- The allocation loop of Load: every in-memory item still holding type
id 0 receives a fresh allocation, in list order. -/
def allocLoop : RegistryInfo → List RegistryItem → RegistryInfo × List RegistryItem
  | info, [] => (info, [])
  | info, ri :: rest =>
    if ri.typeId = 0 then
      let a := allocateNewType info ri
      let r := allocLoop a.1 rest
      (r.1, a.2 :: r.2)
    else
      let r := allocLoop info rest
      (r.1, ri :: r.2)

/-- The reconciliation part of SystemRegistry.Load: fold every persisted
item through updateTypeInfo, then allocate every item still lacking a
type id. -/
def loadReconcile (items persisted : List RegistryItem) (info : RegistryInfo) :
    List RegistryItem × RegistryInfo :=
  let items1 := persisted.foldl updateTypeInfo items
  let a := allocLoop info items1
  (a.2, a.1)

/-- The RegistryInfo Load creates on first run: identifier (1,1), both
counters seeded at 1001. -/
def firstRunInfo : RegistryInfo := ⟨some ⟨1, 1⟩, 1001, 1001⟩

/-- C9: SetId on a RegistryInfo is a no-op and GetId always yields the
reserved identifier (1,1), whatever the stored Id field holds. -/
theorem c9_registry_info_fixed_id :
    ∀ (ri : RegistryInfo) (id : Id),
      RegistryInfo.SetId ri id = ri ∧ RegistryInfo.GetId ri = ⟨1, 1⟩ :=
  fun _ _ => ⟨rfl, rfl⟩

/-- C10: when persisting the updated item fails, AllocateId returns the
error, yet the identifier has been stamped onto the record and the item's
counter incremented — neither is rolled back. -/
theorem c10_allocate_id_not_atomic
    (idx : List Nat → Option RegistryItem) (nm : List Nat)
    (info : RegistryItem) (e : DErr) (h : idx nm = some info) :
    allocateIdForType idx nm (some e)
      = (some e, some { info with nextObjectId := info.nextObjectId + 1 },
          some ⟨info.typeId, info.nextObjectId⟩) := by
  simp [allocateIdForType, h]

/-- Fixed instance for the C10 witness. -/
def c10item : RegistryItem := ⟨some ⟨2, 1001⟩, strBytes "T", 1001, 5, []⟩

/-- Witness for C10. -/
theorem c10_witness :
    allocateIdForType (fun nm => if nm = strBytes "T" then some c10item else none)
        (strBytes "T") (some DErr.keyNotFound)
      = (some DErr.keyNotFound, some { c10item with nextObjectId := 6 },
          some ⟨1001, 5⟩) := by
  have h := c10_allocate_id_not_atomic
    (fun nm => if nm = strBytes "T" then some c10item else none)
    (strBytes "T") c10item DErr.keyNotFound (by simp)
  simpa [c10item] using h

/-! ## C7: allocated identifiers are distinct and strictly increasing -/

lemma allocateSeq_counter (n : Nat) :
    ∀ info : RegistryItem,
      (allocateSeq info n).1.nextObjectId = info.nextObjectId + (n : Int) := by
  induction n with
  | zero =>
    intro info
    simp [allocateSeq]
  | succ n ih =>
    intro info
    rw [allocateSeq]
    simp only [allocateIdSuccess]
    rw [ih]
    push_cast
    ring

lemma allocateSeq_mem_ge (n : Nat) :
    ∀ (info : RegistryItem), ∀ i ∈ (allocateSeq info n).2,
      info.nextObjectId ≤ i.objectId := by
  induction n with
  | zero =>
    intro info i hi
    simp [allocateSeq] at hi
  | succ n ih =>
    intro info i hi
    rw [allocateSeq] at hi
    simp only [allocateIdSuccess] at hi
    rcases List.mem_cons.mp hi with he | hr
    · rw [he]
    · have := ih _ _ hr
      simp at this
      omega

/-- C7: after N successful AllocateId calls for one type, the N minted
identifiers are pairwise distinct with strictly increasing object ids,
and the per-type next-object-id counter never decreases across the
calls. -/
theorem c7_allocate_id_monotone (info : RegistryItem) (n : Nat) :
    ((allocateSeq info n).2.Pairwise fun a b => a ≠ b ∧ a.objectId < b.objectId) ∧
    (∀ k, k ≤ n →
      (allocateSeq info k).1.nextObjectId ≤ (allocateSeq info n).1.nextObjectId) := by
  constructor
  · induction n generalizing info with
    | zero => simp [allocateSeq]
    | succ n ih =>
      rw [allocateSeq]
      simp only [allocateIdSuccess]
      rw [List.pairwise_cons]
      refine ⟨?_, ih _⟩
      intro b hb
      have hge := allocateSeq_mem_ge n _ b hb
      simp at hge
      constructor
      · intro heq
        rw [← heq] at hge
        simp at hge
      · simpa using hge
  · intro k hk
    rw [allocateSeq_counter, allocateSeq_counter]
    omega

/-- Fixed instance for the C7 witness. -/
def c7item : RegistryItem := ⟨some ⟨2, 1001⟩, strBytes "T", 1001, 1, []⟩

/-- Witness for C7 with three allocations. -/
theorem c7_witness :
    ((allocateSeq c7item 3).2.Pairwise fun a b => a ≠ b ∧ a.objectId < b.objectId) ∧
    (allocateSeq c7item 2).1.nextObjectId ≤ (allocateSeq c7item 3).1.nextObjectId :=
  ⟨(c7_allocate_id_monotone c7item 3).1, (c7_allocate_id_monotone c7item 3).2 2 (by decide)⟩

/-! ## C8: bootstrap reserved identifiers and the 1001 seed -/

lemma allocLoop_all_zero :
    ∀ (items : List RegistryItem) (info : RegistryInfo),
      (∀ ri ∈ items, ri.typeId = 0) →
      ((allocLoop info items).2.length = items.length ∧
        ∀ i (h2 : i < (allocLoop info items).2.length),
          ((allocLoop info items).2.get ⟨i, h2⟩).id
            = some ⟨REGISTRY_ITEM_TYPE_ID, info.nextObjectId + (i : Int)⟩ ∧
          ((allocLoop info items).2.get ⟨i, h2⟩).typeId = info.nextTypeId + (i : Int)) := by
  intro items
  induction items with
  | nil =>
    intro info _
    refine ⟨rfl, ?_⟩
    intro i h2
    simp [allocLoop] at h2
  | cons ri rest ih =>
    intro info hall
    rw [allocLoop, if_pos (hall ri (List.mem_cons_self ri rest))]
    simp only [allocateNewType]
    obtain ⟨hlen, hget⟩ :=
      ih { info with nextTypeId := info.nextTypeId + 1,
                     nextObjectId := info.nextObjectId + 1 }
        (fun x hx => hall x (List.mem_cons_of_mem ri hx))
    constructor
    · simp [hlen]
    · intro i h2
      cases i with
      | zero =>
        simp [List.get]
      | succ j =>
        rw [List.get_cons_succ]
        constructor
        · rw [(hget j (by simp only [List.length_cons] at h2; omega)).1]
          simp only [Option.some.injEq, Id.mk.injEq, true_and]
          push_cast
          ring
        · rw [(hget j (by simp only [List.length_cons] at h2; omega)).2]
          push_cast
          ring

/-- C8: on a first-run Load the Registry Info is created at identifier
(1,1) with the next-type-id counter seeded at 1001, and the k-th newly
allocated Registry Item is persisted at identifier (2, 1001+k), the n
drawn from the bootstrap counter (which advances in lockstep with the
type-id counter, so the item's type id is 1001+k as well). -/
theorem c8_bootstrap_reserved_ids
    (items : List RegistryItem) (hall : ∀ ri ∈ items, ri.typeId = 0)
    (i : Nat) (hi : i < (loadReconcile items [] firstRunInfo).1.length) :
    firstRunInfo.id = some ⟨1, 1⟩ ∧ firstRunInfo.nextTypeId = 1001 ∧
    ((loadReconcile items [] firstRunInfo).1.get ⟨i, hi⟩).id
      = some ⟨2, 1001 + (i : Int)⟩ ∧
    ((loadReconcile items [] firstRunInfo).1.get ⟨i, hi⟩).typeId = 1001 + (i : Int) := by
  obtain ⟨hlen, hget⟩ := allocLoop_all_zero items firstRunInfo hall
  obtain ⟨hid, hty⟩ := hget i hi
  exact ⟨rfl, rfl, hid, hty⟩

/-- Fixed instance for the C8 witness: two fresh registrations. -/
def c8items : List RegistryItem :=
  [NewRegistryItem (strBytes "A"), NewRegistryItem (strBytes "B")]

/-- Witness for C8: the second freshly allocated item lands at (2,1002). -/
theorem c8_witness :
    ∃ h : 1 < (loadReconcile c8items [] firstRunInfo).1.length,
      ((loadReconcile c8items [] firstRunInfo).1.get ⟨1, h⟩).id = some ⟨2, 1002⟩ ∧
      ((loadReconcile c8items [] firstRunInfo).1.get ⟨1, h⟩).typeId = 1002 := by
  have h1 : 1 < (loadReconcile c8items [] firstRunInfo).1.length := by decide
  obtain ⟨-, -, hid, hty⟩ := c8_bootstrap_reserved_ids c8items (by decide) 1 h1
  refine ⟨h1, ?_, ?_⟩
  · rw [hid]
    norm_num
  · rw [hty]
    norm_num

/-! ## C3: duplicate registration and Load reconciliation

On a store that already holds a persisted item of the name, every
in-memory duplicate is reconciled to the same persisted type id.  On a
fresh store, however, each duplicate in-memory item is still at type id 0
after reconciliation and the allocation loop hands every one of them its
own fresh type id — two distinct ids for one name. -/

/-- A fresh registration of type name "A". -/
def c3item : RegistryItem := NewRegistryItem (strBytes "A")

/-- C3 as stated is false: registering "A" twice and loading against a
store with no persisted item for "A" leaves the two in-memory items with
the distinct type ids 1001 and 1002. -/
theorem c3_counterexample :
    ((loadReconcile [c3item, c3item] [] firstRunInfo).1.map RegistryItem.typeId)
      = [1001, 1002] ∧ (1001 : Int) ≠ 1002 :=
  ⟨rfl, by decide⟩

lemma updateTypeInfo_self {items : List RegistryItem} {p : RegistryItem} {n : List Nat}
    (hpn : p.typeName = n) :
    ∀ ri ∈ updateTypeInfo items p, ri.typeName = n → ri.typeId = p.typeId := by
  intro ri hri hname
  obtain ⟨x, hx, hfx⟩ := List.mem_map.mp hri
  by_cases hxn : x.typeName = p.typeName
  · rw [← hfx]
    simp [hxn]
  · exfalso
    rw [← hfx] at hname
    simp [hxn] at hname
    exact hxn (by rw [hname, hpn])

lemma updateTypeInfo_preserve {items : List RegistryItem} {q : RegistryItem}
    {n : List Nat} {c : Int}
    (hq : q.typeName = n → q.typeId = c)
    (hinv : ∀ ri ∈ items, ri.typeName = n → ri.typeId = c) :
    ∀ ri ∈ updateTypeInfo items q, ri.typeName = n → ri.typeId = c := by
  intro ri hri hname
  obtain ⟨x, hx, hfx⟩ := List.mem_map.mp hri
  by_cases hxn : x.typeName = q.typeName
  · rw [← hfx] at hname ⊢
    simp [hxn] at hname ⊢
    exact hq hname
  · rw [← hfx] at hname ⊢
    simp [hxn] at hname ⊢
    exact hinv x hx hname

lemma foldl_updateTypeInfo_inv {n : List Nat} {c : Int} :
    ∀ (ps items : List RegistryItem),
      (∀ q ∈ ps, q.typeName = n → q.typeId = c) →
      (∀ ri ∈ items, ri.typeName = n → ri.typeId = c) →
      ∀ ri ∈ ps.foldl updateTypeInfo items, ri.typeName = n → ri.typeId = c := by
  intro ps
  induction ps with
  | nil =>
    intro items _ hinv
    simpa using hinv
  | cons q rest ih =>
    intro items hps hinv
    rw [List.foldl_cons]
    exact ih _ (fun q2 h2 => hps q2 (List.mem_cons_of_mem _ h2))
      (updateTypeInfo_preserve (hps q (List.mem_cons_self _ _)) hinv)

lemma allocLoop_preserve_nonzero {n : List Nat} {c : Int} (hc : c ≠ 0) :
    ∀ (items : List RegistryItem) (info : RegistryInfo),
      (∀ ri ∈ items, ri.typeName = n → ri.typeId = c) →
      ∀ ri ∈ (allocLoop info items).2, ri.typeName = n → ri.typeId = c := by
  intro items
  induction items with
  | nil =>
    intro info _ ri hri
    simp [allocLoop] at hri
  | cons x rest ihx =>
    intro info hinv ri hri
    rw [allocLoop] at hri
    by_cases h0 : x.typeId = 0
    · rw [if_pos h0] at hri
      simp only [allocateNewType] at hri
      rcases List.mem_cons.mp hri with he | hr
      · intro hname
        exfalso
        rw [he] at hname
        simp only [] at hname
        have hxc := hinv x (List.mem_cons_self _ _) hname
        rw [h0] at hxc
        exact hc hxc.symm
      · exact ihx _ (fun y hy => hinv y (List.mem_cons_of_mem _ hy)) ri hr
    · rw [if_neg h0] at hri
      simp only [] at hri
      rcases List.mem_cons.mp hri with he | hr
      · rw [he]
        exact hinv x (List.mem_cons_self _ _)
      · exact ihx _ (fun y hy => hinv y (List.mem_cons_of_mem _ hy)) ri hr

/-- C3 amended: when the store holds a persisted Registry Item with the
registered name (necessarily with a nonzero type id, and as the only
persisted item of that name), Load reconciliation leaves every in-memory
item of that name — duplicates included — with that one persisted type
id.  (On a fresh store the claim fails, see the counterexample: each
duplicate receives its own fresh id.) -/
theorem c3_amended_reconcile
    (items persisted : List RegistryItem) (p : RegistryItem) (n : List Nat)
    (info : RegistryInfo)
    (hp : p ∈ persisted) (hpn : p.typeName = n) (hpt : p.typeId ≠ 0)
    (huniq : ∀ q ∈ persisted, q.typeName = n → q = p) :
    ∀ ri ∈ (loadReconcile items persisted info).1,
      ri.typeName = n → ri.typeId = p.typeId := by
  obtain ⟨l1, l2, rfl⟩ := List.append_of_mem hp
  intro ri hri hname
  have hfold : ∀ x ∈ (l1 ++ p :: l2).foldl updateTypeInfo items,
      x.typeName = n → x.typeId = p.typeId := by
    rw [List.foldl_append, List.foldl_cons]
    exact foldl_updateTypeInfo_inv l2 _
      (fun q hq hqn => by rw [huniq q (by simp [hq]) hqn])
      (updateTypeInfo_self hpn)
  exact allocLoop_preserve_nonzero hpt _ info hfold ri hri hname

/-- The persisted Registry Item of name "A" for the C3 witness. -/
def c3persisted : RegistryItem := ⟨some ⟨2, 1001⟩, strBytes "A", 1001, 5, []⟩

/-- Witness for the amended C3: with the persisted item present, the first
reconciled in-memory item carries its type id. -/
theorem c3_witness :
    ∃ h : 0 < (loadReconcile [c3item, c3item] [c3persisted] firstRunInfo).1.length,
      ((loadReconcile [c3item, c3item] [c3persisted] firstRunInfo).1.get ⟨0, h⟩).typeId
        = 1001 := by
  have h0 : 0 < (loadReconcile [c3item, c3item] [c3persisted] firstRunInfo).1.length := by
    decide
  refine ⟨h0, ?_⟩
  exact c3_amended_reconcile [c3item, c3item] [c3persisted] c3persisted (strBytes "A")
    firstRunInfo (by decide) rfl (by decide) (by decide)
    ((loadReconcile [c3item, c3item] [c3persisted] firstRunInfo).1.get ⟨0, h0⟩)
    (List.get_mem _ _ _) (by rfl)

end DStore
